import Mathlib

/-!
Verification of the market-basket dashboard core (`app/main.py`).

The development shallowly embeds the data model and the pure content of the
pandas pipeline: normalization of raw rows (`load_data`), the three-stage
filter (`filter_data`), and the aggregations (`kpi_section`, `top_products`,
`basket_analysis`, `temporal_pattern`).

Modelling conventions:
* a nullable column value is an `Option`; coercing `pd.to_numeric` sends an
  unparsable cell to `none` (pandas `NaN`);
* timestamps are hours since the epoch 1970-01-01 00:00 (a Thursday), so
  `t / 24` is the calendar-day index, `t % 24` the hour of day, and
  `(t / 24 + 3) % 7` the weekday index with Monday = 0;
* money is `ℚ`; quantities are `ℤ` (returns may be negative);
* pandas sums skip `NaN` (an undefined `Revenue` contributes 0 to a sum);
* `sort_values`/`sorted` are modelled as stable sorts on the relevant key.
-/

namespace Market

/-- Fixed Monday-to-Sunday weekday label list used by the heatmap. -/
def weekdayOrder : List String :=
  ["Monday", "Tuesday", "Wednesday", "Thursday", "Friday", "Saturday", "Sunday"]

/-- Weekday label of a timestamp (`Series.dt.day_name()`); the epoch day is a
Thursday, hence the offset 3. -/
def dayName (t : Nat) : String :=
  weekdayOrder.getD ((t / 24 + 3) % 7) "Monday"

/-- Hour-of-day component of a timestamp (`Series.dt.hour`). -/
def hourOf (t : Nat) : Nat := t % 24

/-- Calendar-day index of a timestamp (`Series.dt.date`). -/
def dateOf (t : Nat) : Nat := t / 24

/-- Gregorian `(year, month)` of a timestamp, by the standard
civil-from-days computation on the day index. This embeds
`Series.dt.to_period` at month granularity followed by `to_timestamp`:
the first-of-month timestamp is injectively determined by the
`(year, month)` pair, so distinct months never collide across years. -/
def monthOf (t : Nat) : Nat × Nat :=
  let z := t / 24 + 719468
  let era := z / 146097
  let doe := z % 146097
  let yoe := (doe - doe / 1460 + doe / 36524 - doe / 146096) / 365
  let y := yoe + era * 400
  let doy := doe - (365 * yoe + yoe / 4 - yoe / 100)
  let mp := (5 * doy + 2) / 153
  let m := if mp < 10 then mp + 3 else mp - 9
  (if m ≤ 2 then y + 1 else y, m)

/-- Raw row as returned by the SQL query in `load_data`: the seven base
columns, with `quantity` and `price` possibly unparsable or missing
(`none`) and `customer_id` / `country` nullable. -/
structure Raw where
  billNo : Nat
  itemname : String
  quantity : Option Int
  date : Nat
  price : Option Rat
  customerID : Option Nat
  country : Option String
  deriving DecidableEq

/-- Normalized transaction row: the base columns after the type coercions of
`load_data` plus the derived columns it appends. -/
structure Row where
  billNo : Nat
  itemname : String
  quantity : Int
  date : Nat
  price : Option Rat
  customerID : Option Nat
  country : Option String
  revenue : Option Rat
  invoiceDate : Nat
  invoiceMonth : Nat × Nat
  hour : Nat
  weekday : String
  deriving DecidableEq

/-- Normalization of one raw row, following `load_data` lines 49-58:
`Quantity` is coerced to numeric, `NaN`-filled with 0 and cast to int (an
unparsable or missing cell becomes 0), `Price` is coerced to numeric with
no fill (an unparsable or missing cell stays `NaN`), `Revenue` is
`Quantity * Price` (`NaN` whenever `Price` is `NaN`), and the temporal
derived columns come from `Date`. -/
def normalizeRow (x : Raw) : Row where
  billNo := x.billNo
  itemname := x.itemname
  quantity := x.quantity.getD 0
  date := x.date
  price := x.price
  customerID := x.customerID
  country := x.country
  revenue := x.price.map (fun p => (x.quantity.getD 0 : Rat) * p)
  invoiceDate := dateOf x.date
  invoiceMonth := monthOf x.date
  hour := hourOf x.date
  weekday := dayName x.date

/-- Embedding of `load_data` applied to an already-materialized raw table. -/
def load_data (xs : List Raw) : List Row := xs.map normalizeRow

end Market

namespace Market

/-- C1: normalization coerces asymmetrically and `Revenue` follows
`UnitPrice` definedness: a missing/unparsable `Quantity` becomes 0, a
missing/unparsable `UnitPrice` stays undefined, and `Revenue` is defined
with value `Quantity * UnitPrice` exactly when `UnitPrice` is defined,
never silently 0 for an unparsable price. -/
theorem c1_normalization_asymmetry (x : Raw) :
    (x.quantity = none → (normalizeRow x).quantity = 0) ∧
    ((normalizeRow x).price = x.price) ∧
    (x.price = none → (normalizeRow x).revenue = none) ∧
    (∀ p : Rat, x.price = some p →
      (normalizeRow x).revenue = some (((normalizeRow x).quantity : Rat) * p)) := by
  refine ⟨fun h => ?_, rfl, fun h => ?_, fun p h => ?_⟩ <;>
    simp [normalizeRow, h]

/-- Witness for C1 at a concrete raw row with both numeric cells
unparsable: quantity becomes 0 and revenue stays undefined. -/
theorem c1_normalization_asymmetry_witness :
    (normalizeRow ⟨1, "Mug", none, 0, none, none, none⟩).quantity = 0 ∧
    (normalizeRow ⟨1, "Mug", none, 0, none, none, none⟩).revenue = none :=
  ⟨(c1_normalization_asymmetry _).1 rfl, (c1_normalization_asymmetry _).2.2.1 rfl⟩

/-- Filter configuration: the sidebar inputs to `filter_data`. The date
range is the value of the period widget (a single-date selection collapses
both bounds to that date before the comparison, so only the collapsed pair
is modelled); `countries` is the multiselect state, `none` meaning the
caller kept the default select-all; `quantityThreshold` is the slider
value. -/
structure FilterConfig where
  startDate : Nat
  endDate : Nat
  countries : Option (List String)
  quantityThreshold : Int

/-- Re-coercion of `InvoiceDate` at the top of `filter_data` (line 75):
`pd.to_datetime` applied to a calendar date followed by `.dt.date` returns
the same calendar date, so on the day-index embedding it is the
identity. -/
def toDatetimeDate (d : Nat) : Nat := d

/-- Row after the `InvoiceDate` re-coercion of `filter_data` line 75. -/
def coerceRow (r : Row) : Row := { r with invoiceDate := toDatetimeDate r.invoiceDate }

/-- Stage 1 of `filter_data`: inclusive date-range mask on `InvoiceDate`. -/
def dateFilter (cfg : FilterConfig) (l : List Row) : List Row :=
  l.filter (fun r => decide (cfg.startDate ≤ r.invoiceDate ∧ r.invoiceDate ≤ cfg.endDate))

/-- Default country option list (line 106): the sorted distinct non-null
`Country` values of the date-filtered result. -/
def defaultCountries (l : List Row) : List String :=
  List.insertionSort (· ≤ ·) (l.filterMap (·.country)).dedup

/-- Country multiselect state actually in force: the caller's selection, or
the default select-all list computed from the date-filtered rows. -/
def selectedCountries (cfg : FilterConfig) (d1 : List Row) : List String :=
  cfg.countries.getD (defaultCountries d1)

/-- Membership test of stage 2 (`Series.isin`, line 111): a null `Country`
is never a member of the selected list (the options were built with
`dropna`, so the list holds no null). -/
def countryOk (sel : List String) (r : Row) : Bool :=
  match r.country with
  | some c => sel.contains c
  | none => false

/-- Minimum of the `Quantity` column of a table (`Series.min`); only ever
consulted on a non-empty table in the source. -/
def qmin : List Row → Int
  | [] => 0
  | r :: rs => rs.foldl (fun m s => min m s.quantity) r.quantity

/-- Maximum of the `Quantity` column of a table (`Series.max`); only ever
consulted on a non-empty table in the source. -/
def qmax : List Row → Int
  | [] => 0
  | r :: rs => rs.foldl (fun m s => max m s.quantity) r.quantity

/-- Slider-enforced clamp of the quantity threshold into the valid range
offered by the widget. -/
def clampInt (x lo hi : Int) : Int := max lo (min x hi)

/-- Stages 1 and 2 of `filter_data` chained (lines 100-111): the date
mask followed by the country mask. -/
def stage2 (l : List Row) (cfg : FilterConfig) : List Row :=
  let d1 := dateFilter cfg l
  d1.filter (countryOk (selectedCountries cfg d1))

/-- Threshold in force at stage 3 (lines 119-133): pinned to the single
value when the valid range collapses, otherwise the slider value clamped
into `[qmin, qmax]` of the stage-2 view. -/
def stage3thr (d2 : List Row) (cfg : FilterConfig) : Int :=
  if qmin d2 = qmax d2 then qmin d2
  else clampInt cfg.quantityThreshold (qmin d2) (qmax d2)

/-- Embedding of `filter_data` (lines 66-137): empty-source early return,
`InvoiceDate` re-coercion, inclusive date-range stage, country stage with
select-all default, empty-view early return, then the quantity-threshold
stage. -/
def filter_data (l : List Row) (cfg : FilterConfig) : List Row :=
  if l = [] then l
  else
    let d2 := stage2 (l.map coerceRow) cfg
    if d2 = [] then d2
    else d2.filter (fun r => decide (stage3thr d2 cfg ≤ r.quantity))

/-- Outcome of a `filter_data` call together with the user-facing signals
it produced: `emptyWarned` records that a sidebar warning reported an
empty view ("Aucune donnée disponible" or "Aucune ligne après filtres
période et pays"), `minmaxComputed` records that the min/max `Quantity`
computation of the threshold stage was reached. -/
structure FilterOutcome where
  result : List Row
  emptyWarned : Bool
  minmaxComputed : Bool
  deriving DecidableEq

/-- Signal-tracking version of `filter_data`, same staging as the code:
both empty early-returns raise the warning and skip the min/max
computation; the threshold stage runs only on a non-empty stage-2 view. -/
def filter_data_traced (l : List Row) (cfg : FilterConfig) : FilterOutcome :=
  if l = [] then ⟨l, true, false⟩
  else
    let d2 := stage2 (l.map coerceRow) cfg
    if d2 = [] then ⟨d2, true, false⟩
    else ⟨d2.filter (fun r => decide (stage3thr d2 cfg ≤ r.quantity)), false, true⟩

/-- State of the caller's dataframe after `filter_data` returns: the only
in-place write `filter_data` performs on its argument is the `InvoiceDate`
re-coercion of line 75 (guarded by the dtype test of line 74); every other
step builds a fresh derived view. -/
def filter_data_source_after (l : List Row) (cfg : FilterConfig) : List Row :=
  if l = [] then l else l.map coerceRow

/-- Result surface of `np.isnan` on the value returned by
`Series.nunique`: `nunique` returns an integer count (it never returns
`NaN`, whatever the column holds), and an integer is never `NaN`. -/
def npIsNaN (n : Nat) : Bool := false

/-- KPI summary (`kpi_section`): the four metrics plus what the customer
metric displays — `some n` is the formatted number, `none` is the "N/A"
branch. -/
structure KPI where
  n_transactions : Nat
  n_items : Nat
  n_customers : Nat
  total_revenue : Rat
  customersDisplay : Option Nat
  deriving DecidableEq

/-- Embedding of `kpi_section` (lines 143-166): distinct `BillNo`,
distinct `Itemname`, distinct non-null `CustomerID` (`nunique` drops
nulls), revenue total with `NaN` summed as 0, and the `np.isnan` guard
on the customer count. -/
def kpi_section (l : List Row) : KPI :=
  let nc := (l.filterMap (·.customerID)).dedup.length
  { n_transactions := (l.map (·.billNo)).dedup.length
    n_items := (l.map (·.itemname)).dedup.length
    n_customers := nc
    total_revenue := (l.map (fun r => r.revenue.getD 0)).sum
    customersDisplay := if npIsNaN nc then none else some nc }

/-- Ranking metric selector of `top_products` (the radio button). -/
inductive RankMode
  | byQuantity
  | byRevenue
  deriving DecidableEq

/-- Row of the per-product aggregate table built by `top_products`. -/
structure ProdRow where
  itemname : String
  quantity_sold : Int
  revenue : Rat
  n_transactions : Nat
  deriving DecidableEq

/-- Group keys of `groupby` on `Itemname`: the distinct item names in
ascending order (pandas sorts group keys). -/
def groupItems (l : List Row) : List String :=
  List.insertionSort (· ≤ ·) ((l.map (·.itemname)).dedup)

/-- Aggregate record of one item group: summed quantity, summed revenue
(`NaN` summed as 0) and distinct bill count. -/
def prodAgg (l : List Row) (i : String) : ProdRow :=
  let g := l.filter (fun r => decide (r.itemname = i))
  { itemname := i
    quantity_sold := (g.map (·.quantity)).sum
    revenue := (g.map (fun r => r.revenue.getD 0)).sum
    n_transactions := (g.map (·.billNo)).dedup.length }

/-- Per-product aggregate table of `top_products` before ranking. -/
def aggTable (l : List Row) : List ProdRow := (groupItems l).map (prodAgg l)

/-- Caller-selected ranking metric as a rational (quantities are cast so
both modes compare in one type). -/
def metricOf (m : RankMode) (p : ProdRow) : Rat :=
  match m with
  | .byQuantity => (p.quantity_sold : Rat)
  | .byRevenue => p.revenue

/-- Descending sort on the selected metric, modelling `sort_values` with
`ascending` false: pandas `nargsort` computes an ascending argsort of the
metric and then reverses the whole indexer, so tied rows come out in the
reverse of their table order. The ascending argsort is embedded as a
stable sort (numpy's default kind runs its stable small-array routine up
to its cutoff, which covers the concrete tables used here; past the
cutoff the default kind leaves tie order unspecified, and no theorem
below asserts a tie order beyond the concrete counterexample). -/
def sortByMetric (m : RankMode) (t : List ProdRow) : List ProdRow :=
  (t.mergeSort (fun a b => decide (metricOf m a ≤ metricOf m b))).reverse

/-- Effective top-N: forced to 1 when a single product remains, otherwise
the slider clamps the request into `[1, n_products]`. -/
def effTopN (nProducts : Nat) (topN : Nat) : Nat :=
  if nProducts = 1 then 1 else max 1 (min topN nProducts)

/-- Embedding of `top_products` (lines 205-270): `none` on the empty-view
(and empty-table) early returns, otherwise the ranked table truncated to
the effective top-N. -/
def top_products (l : List Row) (m : RankMode) (topN : Nat) : Option (List ProdRow) :=
  if l = [] then none
  else
    let agg := sortByMetric m (aggTable l)
    let n := agg.length
    if n = 0 then none
    else some (agg.take (effTopN n topN))

/-- Basket record built by `basket_analysis` for one `BillNo` group:
distinct item count, summed quantity, summed revenue (`NaN` summed
as 0). -/
structure Basket where
  basket_size : Nat
  quantity_total : Int
  revenue : Rat
  deriving DecidableEq

/-- Group keys of `groupby` on `BillNo`: distinct bills in ascending
order (pandas sorts group keys). -/
def billKeys (l : List Row) : List Nat :=
  List.insertionSort (· ≤ ·) ((l.map (·.billNo)).dedup)

/-- Aggregate basket of one bill. -/
def basketOf (l : List Row) (b : Nat) : Basket :=
  let g := l.filter (fun r => decide (r.billNo = b))
  { basket_size := (g.map (·.itemname)).dedup.length
    quantity_total := (g.map (·.quantity)).sum
    revenue := (g.map (fun r => r.revenue.getD 0)).sum }

/-- Basket table of `basket_analysis`, one row per distinct `BillNo`. -/
def baskets (l : List Row) : List Basket := (billKeys l).map (basketOf l)

/-- Basket-size histogram (`value_counts` then sort by size): one row per
distinct size value, ascending, carrying its frequency among the
baskets. -/
def sizeCounts (bs : List Basket) : List (Nat × Nat) :=
  let sizes := bs.map (·.basket_size)
  (List.insertionSort (· ≤ ·) sizes.dedup).map (fun s => (s, sizes.count s))

/-- Result surface of `basket_analysis`: the three means and the size
histogram. -/
structure BasketStats where
  mean_basket_size : Rat
  mean_quantity_total : Rat
  mean_revenue : Rat
  size_counts : List (Nat × Nat)
  deriving DecidableEq

/-- Embedding of `basket_analysis` (lines 274-327): `none` on the
empty-view early return, otherwise the three means over the basket table
(pandas mean is sum over length) and the size histogram. -/
def basket_analysis (l : List Row) : Option BasketStats :=
  if l = [] then none
  else
    let bs := baskets l
    some { mean_basket_size := (bs.map (fun b => (b.basket_size : Rat))).sum / (bs.length : Rat)
           mean_quantity_total := (bs.map (fun b => (b.quantity_total : Rat))).sum / (bs.length : Rat)
           mean_revenue := (bs.map (·.revenue)).sum / (bs.length : Rat)
           size_counts := sizeCounts bs }

/-- Granularity selector of the time-series rollup (the radio button of
`transactions_over_time`). -/
inductive Granularity
  | daily
  | monthly
  deriving DecidableEq

/-- Daily branch of `transactions_over_time` (lines 179-189): group by
`InvoiceDate`, count distinct `BillNo` per day, buckets in ascending
order (pandas sorts group keys). -/
def dailySeries (l : List Row) : List (Nat × Nat) :=
  (List.insertionSort (· ≤ ·) ((l.map (·.invoiceDate)).dedup)).map
    (fun d => (d, ((l.filter (fun r => decide (r.invoiceDate = d))).map (·.billNo)).dedup.length))

/-- Lexicographic order on `(year, month)` buckets, the ascending group
key order of the monthly branch. -/
def monthLe (a b : Nat × Nat) : Prop :=
  a.1 < b.1 ∨ (a.1 = b.1 ∧ a.2 ≤ b.2)

instance : DecidableRel monthLe := fun a b => by
  unfold monthLe; infer_instance

/-- Monthly branch of `transactions_over_time` (lines 190-200): group by
`InvoiceMonth`, count distinct `BillNo` per month, buckets ascending. -/
def monthlySeries (l : List Row) : List ((Nat × Nat) × Nat) :=
  (List.insertionSort monthLe ((l.map (·.invoiceMonth)).dedup)).map
    (fun d => (d, ((l.filter (fun r => decide (r.invoiceMonth = d))).map (·.billNo)).dedup.length))

/-- Embedding of `transactions_over_time` (lines 169-202): the
caller-selected granularity picks the daily or the monthly rollup; the
function has no empty-view guard, an empty view just yields an empty
bucket table. -/
def transactions_over_time (g : Granularity) (l : List Row) :
    List (Nat × Nat) ⊕ List ((Nat × Nat) × Nat) :=
  match g with
  | .daily => Sum.inl (dailySeries l)
  | .monthly => Sum.inr (monthlySeries l)

/-- Row of the per-country aggregate table of `country_analysis`. -/
structure CountryRow where
  country : String
  transactions : Nat
  revenue : Rat
  deriving DecidableEq

/-- Group keys of `groupby` on `Country`: pandas drops null keys, so only
the distinct non-null countries appear, in ascending order. -/
def groupCountries (l : List Row) : List String :=
  List.insertionSort (· ≤ ·) ((l.filterMap (·.country)).dedup)

/-- Aggregate record of one country group: distinct bill count and summed
revenue (`NaN` summed as 0). -/
def countryAggRow (l : List Row) (c : String) : CountryRow :=
  let g := l.filter (fun r => decide (r.country = some c))
  { country := c
    transactions := (g.map (·.billNo)).dedup.length
    revenue := (g.map (fun r => r.revenue.getD 0)).sum }

/-- Per-country aggregate table before ranking. -/
def countryTable (l : List Row) : List CountryRow :=
  (groupCountries l).map (countryAggRow l)

/-- Descending revenue sort of the country table, the same `sort_values`
reversal semantics as `sortByMetric`. -/
def sortCountriesByRevenue (t : List CountryRow) : List CountryRow :=
  (t.mergeSort (fun a b => decide (a.revenue ≤ b.revenue))).reverse

/-- Embedding of `country_analysis` (lines 331-385): `none` on the
empty-view and empty-table early returns, otherwise the revenue-ranked
country table truncated to the slider-clamped top-N (forced to 1 when a
single country remains). -/
def country_analysis (l : List Row) (topC : Nat) : Option (List CountryRow) :=
  if l = [] then none
  else
    let tbl := sortCountriesByRevenue (countryTable l)
    let n := tbl.length
    if n = 0 then none
    else some (tbl.take (if n = 1 then 1 else max 1 (min topC n)))

/-- Heatmap cell key of a row: its `(Weekday, Hour)` pair. -/
def cellKey (r : Row) : String × Nat := (r.weekday, r.hour)

/-- Lexicographic order on `(Weekday, Hour)` keys as pandas sorts the
two-level group keys (weekday by string order, then hour). -/
def pairKeyLe (k1 k2 : String × Nat) : Prop :=
  k1.1 < k2.1 ∨ (k1.1 = k2.1 ∧ k1.2 ≤ k2.2)

instance : DecidableRel pairKeyLe := fun k1 k2 => by
  unfold pairKeyLe; infer_instance

/-- Group keys of `groupby` on `(Weekday, Hour)`: the distinct observed
pairs in sorted order. -/
def heatKeys (l : List Row) : List (String × Nat) :=
  List.insertionSort pairKeyLe ((l.map cellKey).dedup)

/-- Embedding of the `temporal_pattern` group-by (lines 392-396): one row
per observed `(Weekday, Hour)` pair carrying the distinct `BillNo` count
of that cell. The subsequent `pd.Categorical` call only retypes the
weekday column for display ordering and changes no value. -/
def heat (l : List Row) : List ((String × Nat) × Nat) :=
  (heatKeys l).map
    (fun k => (k, ((l.filter (fun r => decide (cellKey r = k))).map (·.billNo)).dedup.length))

/-- Concrete normalized rows used to instantiate universally quantified
theorems. `exRowNoCust` lacks a customer id, `exRowNoCountry` lacks a
country. -/
def exRowNoCust : Row := normalizeRow ⟨2, "Plate", some 1, 10, some 3, none, some "FR"⟩

/-- Concrete normalized row with a null `Country` cell. -/
def exRowNoCountry : Row := normalizeRow ⟨5, "Cup", some 1, 10, some 2, some 7, none⟩

/-- Concrete filter configuration keeping the default select-all country
selection and a wide date range. -/
def exCfgDefault : FilterConfig := ⟨0, 100, none, 0⟩

end Market

namespace Market

theorem coerceRow_eq (r : Row) : coerceRow r = r := rfl

theorem map_coerceRow (l : List Row) : l.map coerceRow = l := by
  induction l with
  | nil => rfl
  | cons a t ih => simp [coerceRow_eq, ih]

theorem dateFilter_sublist (cfg : FilterConfig) (l : List Row) : List.Sublist (dateFilter cfg l) l := by
  unfold dateFilter; exact List.filter_sublist l

theorem stage2_sublist (l : List Row) (cfg : FilterConfig) : List.Sublist (stage2 l cfg) l := by
  unfold stage2
  exact (List.filter_sublist _).trans (dateFilter_sublist cfg l)

theorem filter_data_sublist (l : List Row) (cfg : FilterConfig) : List.Sublist (filter_data l cfg) l := by
  by_cases h : l = []
  · simp [filter_data, h]
  · rw [filter_data, if_neg h, map_coerceRow]
    by_cases h2 : stage2 l cfg = []
    · rw [if_pos h2]; exact stage2_sublist l cfg
    · rw [if_neg h2]
      exact (List.filter_sublist _).trans (stage2_sublist l cfg)

theorem foldl_min_le_init (rs : List Row) :
    ∀ a : Int, rs.foldl (fun m s => min m s.quantity) a ≤ a := by
  induction rs with
  | nil => intro a; exact le_refl a
  | cons s rs ih =>
    intro a
    exact le_trans (ih (min a s.quantity)) (min_le_left _ _)

theorem foldl_min_le_mem (rs : List Row) :
    ∀ a : Int, ∀ r ∈ rs, rs.foldl (fun m s => min m s.quantity) a ≤ r.quantity := by
  induction rs with
  | nil => intro a r hr; cases hr
  | cons s rs ih =>
    intro a r hr
    rcases List.mem_cons.mp hr with h | h
    · subst h
      exact le_trans (foldl_min_le_init rs _) (min_le_right _ _)
    · exact ih _ r h

theorem foldl_min_attained (rs : List Row) :
    ∀ a : Int, rs.foldl (fun m s => min m s.quantity) a = a ∨
      ∃ r ∈ rs, rs.foldl (fun m s => min m s.quantity) a = r.quantity := by
  induction rs with
  | nil => intro a; exact Or.inl rfl
  | cons s rs ih =>
    intro a
    rcases ih (min a s.quantity) with h | ⟨r, hr, h⟩
    · rcases min_choice a s.quantity with hm | hm
      · left; rw [List.foldl_cons, h, hm]
      · right; exact ⟨s, List.mem_cons_self s rs, by rw [List.foldl_cons, h, hm]⟩
    · right; exact ⟨r, List.mem_cons_of_mem s hr, by rw [List.foldl_cons]; exact h⟩

theorem foldl_max_ge_init (rs : List Row) :
    ∀ a : Int, a ≤ rs.foldl (fun m s => max m s.quantity) a := by
  induction rs with
  | nil => intro a; exact le_refl a
  | cons s rs ih =>
    intro a
    exact le_trans (le_max_left _ _) (ih (max a s.quantity))

theorem foldl_max_ge_mem (rs : List Row) :
    ∀ a : Int, ∀ r ∈ rs, r.quantity ≤ rs.foldl (fun m s => max m s.quantity) a := by
  induction rs with
  | nil => intro a r hr; cases hr
  | cons s rs ih =>
    intro a r hr
    rcases List.mem_cons.mp hr with h | h
    · subst h
      exact le_trans (le_max_right _ _) (foldl_max_ge_init rs _)
    · exact ih _ r h

theorem foldl_max_attained (rs : List Row) :
    ∀ a : Int, rs.foldl (fun m s => max m s.quantity) a = a ∨
      ∃ r ∈ rs, rs.foldl (fun m s => max m s.quantity) a = r.quantity := by
  induction rs with
  | nil => intro a; exact Or.inl rfl
  | cons s rs ih =>
    intro a
    rcases ih (max a s.quantity) with h | ⟨r, hr, h⟩
    · rcases max_choice a s.quantity with hm | hm
      · left; rw [List.foldl_cons, h, hm]
      · right; exact ⟨s, List.mem_cons_self s rs, by rw [List.foldl_cons, h, hm]⟩
    · right; exact ⟨r, List.mem_cons_of_mem s hr, by rw [List.foldl_cons]; exact h⟩

theorem qmin_le {l : List Row} {r : Row} (hr : r ∈ l) : qmin l ≤ r.quantity := by
  cases l with
  | nil => cases hr
  | cons s rs =>
    rcases List.mem_cons.mp hr with h | h
    · subst h; exact foldl_min_le_init rs _
    · exact foldl_min_le_mem rs _ r h

theorem le_qmax {l : List Row} {r : Row} (hr : r ∈ l) : r.quantity ≤ qmax l := by
  cases l with
  | nil => cases hr
  | cons s rs =>
    rcases List.mem_cons.mp hr with h | h
    · subst h; exact foldl_max_ge_init rs _
    · exact foldl_max_ge_mem rs _ r h

theorem qmax_attained {l : List Row} (h : l ≠ []) : ∃ r ∈ l, r.quantity = qmax l := by
  cases l with
  | nil => exact absurd rfl h
  | cons s rs =>
    rcases foldl_max_attained rs s.quantity with hm | ⟨r, hr, hm⟩
    · exact ⟨s, List.mem_cons_self s rs, hm.symm⟩
    · exact ⟨r, List.mem_cons_of_mem s hr, hm.symm⟩

theorem qmin_le_qmax {l : List Row} (h : l ≠ []) : qmin l ≤ qmax l := by
  obtain ⟨r, hr, hm⟩ := qmax_attained h
  exact hm ▸ qmin_le hr

/-- Threshold in force never exceeds the maximal quantity of a non-empty
stage-2 view, so the quantity stage keeps at least the row attaining the
maximum. -/
theorem stage3thr_le_qmax {d2 : List Row} (cfg : FilterConfig) (h : d2 ≠ []) :
    stage3thr d2 cfg ≤ qmax d2 := by
  unfold stage3thr
  by_cases he : qmin d2 = qmax d2
  · rw [if_pos he, he]
  · rw [if_neg he]
    exact max_le (qmin_le_qmax h) (min_le_right _ _)

theorem stage3_ne_nil {d2 : List Row} (cfg : FilterConfig) (h : d2 ≠ []) :
    d2.filter (fun r => decide (stage3thr d2 cfg ≤ r.quantity)) ≠ [] := by
  obtain ⟨r, hr, hm⟩ := qmax_attained h
  intro hnil
  have : r ∈ d2.filter (fun r => decide (stage3thr d2 cfg ≤ r.quantity)) := by
    rw [List.mem_filter]
    exact ⟨hr, by simpa [hm] using stage3thr_le_qmax cfg h⟩
  rw [hnil] at this
  cases this

theorem qmin_attained {l : List Row} (h : l ≠ []) : ∃ r ∈ l, r.quantity = qmin l := by
  cases l with
  | nil => exact absurd rfl h
  | cons s rs =>
    rcases foldl_min_attained rs s.quantity with hm | ⟨r, hr, hm⟩
    · exact ⟨s, List.mem_cons_self s rs, hm.symm⟩
    · exact ⟨r, List.mem_cons_of_mem s hr, hm.symm⟩

/-- Membership in the stage-2 view gives both stage predicates. -/
theorem mem_stage2 {r : Row} {l : List Row} {cfg : FilterConfig} (h : r ∈ stage2 l cfg) :
    r ∈ l ∧ (cfg.startDate ≤ r.invoiceDate ∧ r.invoiceDate ≤ cfg.endDate) ∧
      countryOk (selectedCountries cfg (dateFilter cfg l)) r = true := by
  unfold stage2 at h
  rw [List.mem_filter] at h
  obtain ⟨h1, hc⟩ := h
  have h1' := h1
  unfold dateFilter at h1'
  rw [List.mem_filter] at h1'
  exact ⟨h1'.1, of_decide_eq_true h1'.2, hc⟩

theorem filter_data_eq_of_ne {l : List Row} {cfg : FilterConfig}
    (hl : l ≠ []) (h2 : stage2 l cfg ≠ []) :
    filter_data l cfg =
      (stage2 l cfg).filter (fun r => decide (stage3thr (stage2 l cfg) cfg ≤ r.quantity)) := by
  unfold filter_data
  rw [if_neg hl, map_coerceRow, if_neg h2]

theorem filter_data_eq_of_stage2_nil {l : List Row} {cfg : FilterConfig}
    (hl : l ≠ []) (h2 : stage2 l cfg = []) :
    filter_data l cfg = [] := by
  unfold filter_data
  rw [if_neg hl, map_coerceRow, if_pos h2, h2]

theorem mem_filter_data {r : Row} {l : List Row} {cfg : FilterConfig}
    (h : r ∈ filter_data l cfg) : r ∈ stage2 l cfg := by
  by_cases hl : l = []
  · rw [hl] at h; simp [filter_data] at h
  · by_cases h2 : stage2 l cfg = []
    · rw [filter_data_eq_of_stage2_nil hl h2] at h; cases h
    · rw [filter_data_eq_of_ne hl h2] at h
      exact (List.mem_filter.mp h).1

end Market

namespace Market

/-- C4: `filter_data` never mutates its source collection. The only
in-place write the code performs is the `InvoiceDate` re-coercion of
line 75, and applying `pd.to_datetime` then `.dt.date` to a calendar-date
column reproduces every value, so the caller's table is unchanged row for
row after the call; every filter stage builds a fresh derived view. -/
theorem c4_source_not_mutated (l : List Row) (cfg : FilterConfig) :
    filter_data_source_after l cfg = l := by
  by_cases h : l = []
  · simp [filter_data_source_after, h]
  · simp [filter_data_source_after, h, map_coerceRow]

/-- Counterexample to C2: on a view whose single transaction has no
`CustomerID`, the KPI section reports the number 0, not the distinct
"N/A" signal — `Series.nunique` returns an integer, so the `np.isnan`
guard can never fire. -/
theorem c2_customer_zero_counterexample :
    (kpi_section [exRowNoCust]).customersDisplay = some 0 ∧
      some 0 ≠ (none : Option Nat) :=
  ⟨rfl, by simp⟩

/-- C2 as amended: the customer KPI always displays the count of distinct
defined `CustomerID` values; in particular a view in which no transaction
carries a defined `CustomerID` displays the number 0 (never the "N/A"
branch, which is dead code). -/
theorem c2_customer_count_amended (l : List Row) :
    (kpi_section l).customersDisplay = some ((l.filterMap (·.customerID)).dedup.length) ∧
    ((∀ r ∈ l, r.customerID = none) → (kpi_section l).customersDisplay = some 0) := by
  refine ⟨rfl, fun h => ?_⟩
  have hnil : l.filterMap (·.customerID) = [] := List.filterMap_eq_nil_iff.mpr h
  simp [kpi_section, hnil, npIsNaN]

/-- Witness for the amended C2 at a concrete one-row view without a
customer id. -/
theorem c2_customer_count_amended_witness :
    (kpi_section [exRowNoCust]).customersDisplay = some 0 :=
  (c2_customer_count_amended [exRowNoCust]).2 (by decide)

/-- C9: under the default select-all country selection the option list is
built from the non-null distinct countries of the date-filtered view, the
inclusion test never accepts a null `Country`, and hence a row with a null
`Country` is dropped from the filtered view even though the caller
selected nothing. -/
theorem c9_default_selection_drops_null_country (l : List Row) (cfg : FilterConfig)
    (hdef : cfg.countries = none) :
    (∀ d1 : List Row, selectedCountries cfg d1 = defaultCountries d1) ∧
    (∀ r ∈ filter_data l cfg, (r.country).isSome) ∧
    (∀ r ∈ l, r.country = none → r ∉ filter_data l cfg) := by
  have hmem : ∀ r ∈ filter_data l cfg, (r.country).isSome := by
    intro r hr
    obtain ⟨-, -, hc⟩ := mem_stage2 (mem_filter_data hr)
    unfold countryOk at hc
    cases hco : r.country with
    | none => rw [hco] at hc; cases hc
    | some c => rfl
  refine ⟨fun d1 => by simp [selectedCountries, hdef], hmem, ?_⟩
  intro r _ hco hr
  have := hmem r hr
  rw [hco] at this
  cases this

/-- Witness for C9: a concrete null-country row inside the date range is
dropped by the default-selection filter. -/
theorem c9_default_selection_drops_null_country_witness :
    exRowNoCountry ∉ filter_data [exRowNoCountry] exCfgDefault :=
  (c9_default_selection_drops_null_country [exRowNoCountry] exCfgDefault rfl).2.2
    exRowNoCountry (List.mem_singleton.mpr rfl) rfl

/-- Every row of the filtered view passes the date mask again, so the date
stage of a second identical application keeps everything. -/
theorem dateFilter_filter_data (l : List Row) (cfg : FilterConfig) :
    dateFilter cfg (filter_data l cfg) = filter_data l cfg := by
  unfold dateFilter
  rw [List.filter_eq_self]
  intro r hr
  obtain ⟨-, hd, -⟩ := mem_stage2 (mem_filter_data hr)
  exact decide_eq_true hd

/-- Every row of the filtered view passes the country mask again, whether
the selection was explicit or the recomputed select-all default, so the
country stage of a second identical application keeps everything. -/
theorem stage2_filter_data (l : List Row) (cfg : FilterConfig) :
    stage2 (filter_data l cfg) cfg = filter_data l cfg := by
  unfold stage2
  rw [dateFilter_filter_data]
  rw [List.filter_eq_self]
  intro r hr
  obtain ⟨-, -, hc⟩ := mem_stage2 (mem_filter_data hr)
  unfold countryOk at hc ⊢
  cases hco : r.country with
  | none => rw [hco] at hc; cases hc
  | some c =>
    rw [hco] at hc
    cases hsel : cfg.countries with
    | some s =>
      rw [show selectedCountries cfg (dateFilter cfg l) = s by
            simp [selectedCountries, hsel]] at hc
      simpa [selectedCountries, hsel] using hc
    | none =>
      have hcmem : c ∈ defaultCountries (filter_data l cfg) := by
        unfold defaultCountries
        rw [List.mem_insertionSort, List.mem_dedup]
        exact List.mem_filterMap.mpr ⟨r, hr, hco⟩
      simpa [selectedCountries, hsel] using hcmem

/-- Quantity bound carried by membership in the filtered view. -/
theorem filter_data_quantity_bound {r : Row} {l : List Row} {cfg : FilterConfig}
    (hl : l ≠ []) (h2 : stage2 l cfg ≠ []) (hr : r ∈ filter_data l cfg) :
    stage3thr (stage2 l cfg) cfg ≤ r.quantity := by
  rw [filter_data_eq_of_ne hl h2] at hr
  exact of_decide_eq_true (List.mem_filter.mp hr).2

/-- Every row of the filtered view passes the quantity threshold computed
on the filtered view itself, so the threshold stage of a second identical
application keeps everything. -/
theorem stage3_filter_data {l : List Row} {cfg : FilterConfig}
    (hl : l ≠ []) (h2 : stage2 l cfg ≠ []) :
    ∀ r ∈ filter_data l cfg, stage3thr (filter_data l cfg) cfg ≤ r.quantity := by
  intro r hr
  set F := filter_data l cfg with hF
  set d2 := stage2 l cfg with hd2
  have hFne : F ≠ [] := by
    rw [hF, filter_data_eq_of_ne hl h2]
    exact stage3_ne_nil cfg h2
  have hFsub : ∀ x ∈ F, x ∈ d2 := by
    intro x hx
    rw [hF, filter_data_eq_of_ne hl h2] at hx
    exact (List.mem_filter.mp hx).1
  unfold stage3thr
  by_cases heq : qmin F = qmax F
  · rw [if_pos heq]
    exact qmin_le hr
  · rw [if_neg heq]
    unfold clampInt
    refine max_le (qmin_le hr) ?_
    have hthr : stage3thr d2 cfg ≤ r.quantity := filter_data_quantity_bound hl h2 hr
    by_cases hcol : qmin d2 = qmax d2
    · exfalso
      apply heq
      have hall : ∀ x ∈ F, x.quantity = qmin d2 := by
        intro x hx
        have h1 := qmin_le (hFsub x hx)
        have h2x := le_qmax (hFsub x hx)
        rw [← hcol] at h2x
        exact le_antisymm h2x h1 |>.symm ▸ rfl
      obtain ⟨rm, hrm, hm⟩ := qmin_attained hFne
      obtain ⟨rM, hrM, hM⟩ := qmax_attained hFne
      rw [← hm, ← hM, hall rm hrm, hall rM hrM]
    · have hthr2 : min cfg.quantityThreshold (qmax d2) ≤ stage3thr d2 cfg := by
        unfold stage3thr
        rw [if_neg hcol]
        exact le_max_right _ _
      have hle : qmax F ≤ qmax d2 := by
        obtain ⟨rM, hrM, hM⟩ := qmax_attained hFne
        rw [← hM]
        exact le_qmax (hFsub rM hrM)
      calc min cfg.quantityThreshold (qmax F)
          ≤ min cfg.quantityThreshold (qmax d2) := min_le_min (le_refl _) hle
        _ ≤ stage3thr d2 cfg := hthr2
        _ ≤ r.quantity := hthr

/-- C3: the filtered view is a subsequence of the source (hence no longer
than it), and applying the same filter configuration twice changes
nothing. -/
theorem c3_filter_monotone_and_idempotent (l : List Row) (cfg : FilterConfig) :
    (filter_data l cfg).length ≤ l.length ∧
    List.Sublist (filter_data l cfg) l ∧
    filter_data (filter_data l cfg) cfg = filter_data l cfg := by
  refine ⟨(filter_data_sublist l cfg).length_le, filter_data_sublist l cfg, ?_⟩
  by_cases hl : l = []
  · rw [hl]; simp [filter_data]
  · by_cases h2 : stage2 l cfg = []
    · rw [filter_data_eq_of_stage2_nil hl h2]
      simp [filter_data]
    · have hFne : filter_data l cfg ≠ [] := by
        rw [filter_data_eq_of_ne hl h2]
        exact stage3_ne_nil cfg h2
      have hs2 : stage2 (filter_data l cfg) cfg = filter_data l cfg :=
        stage2_filter_data l cfg
      have hs2ne : stage2 (filter_data l cfg) cfg ≠ [] := by rw [hs2]; exact hFne
      rw [filter_data_eq_of_ne hFne hs2ne, hs2, List.filter_eq_self]
      intro r hr
      exact decide_eq_true (stage3_filter_data hl h2 r hr)

/-- Concrete configuration whose date range excludes `exRowNoCust`, so
that the filter pipeline empties at the period stage. -/
def exCfgNarrow : FilterConfig := ⟨50, 60, none, 0⟩

theorem traced_eq_of_ne {l : List Row} {cfg : FilterConfig}
    (hl : l ≠ []) (h2 : stage2 l cfg ≠ []) :
    filter_data_traced l cfg =
      ⟨(stage2 l cfg).filter (fun r => decide (stage3thr (stage2 l cfg) cfg ≤ r.quantity)),
        false, true⟩ := by
  unfold filter_data_traced
  rw [if_neg hl, map_coerceRow, if_neg h2]

theorem traced_eq_of_stage2_nil {l : List Row} {cfg : FilterConfig}
    (hl : l ≠ []) (h2 : stage2 l cfg = []) :
    filter_data_traced l cfg = ⟨stage2 l cfg, true, false⟩ := by
  unfold filter_data_traced
  rw [if_neg hl, map_coerceRow, if_pos h2]

/-- C6: an empty view is handled as a guarded signal, never reached by the
min/max computation, and every aggregation of an empty view is
well-defined. Whenever the pipeline ends empty the "no rows" warning was
raised and the min/max `Quantity` computation was skipped; an empty
source or an empty stage-2 view short-circuits the remaining stages; and
all six aggregations — KPI summary, ranked products, baskets, heatmap,
daily/monthly time series and country statistics — return zero/empty
results on an empty view rather than failing. -/
theorem c6_empty_view_guarded :
    (∀ (l : List Row) (cfg : FilterConfig), (filter_data_traced l cfg).result = [] →
        (filter_data_traced l cfg).emptyWarned = true ∧
        (filter_data_traced l cfg).minmaxComputed = false) ∧
    (∀ cfg : FilterConfig, filter_data_traced [] cfg = ⟨[], true, false⟩) ∧
    (∀ (l : List Row) (cfg : FilterConfig), l ≠ [] → stage2 l cfg = [] →
        filter_data_traced l cfg = ⟨stage2 l cfg, true, false⟩) ∧
    kpi_section [] = ⟨0, 0, 0, 0, some 0⟩ ∧
    (∀ (m : RankMode) (topN : Nat), top_products [] m topN = none) ∧
    basket_analysis ([] : List Row) = none ∧
    heat ([] : List Row) = [] ∧
    transactions_over_time Granularity.daily [] = Sum.inl [] ∧
    transactions_over_time Granularity.monthly [] = Sum.inr [] ∧
    (∀ topC : Nat, country_analysis [] topC = none) := by
  refine ⟨?_, fun cfg => by simp [filter_data_traced], fun l cfg hl h2 => traced_eq_of_stage2_nil hl h2,
    rfl, fun m topN => rfl, rfl, rfl, rfl, rfl, fun topC => rfl⟩
  intro l cfg hres
  by_cases hl : l = []
  · rw [hl] at hres ⊢
    simp [filter_data_traced]
  · by_cases h2 : stage2 l cfg = []
    · rw [traced_eq_of_stage2_nil hl h2]
      exact ⟨rfl, rfl⟩
    · exfalso
      rw [traced_eq_of_ne hl h2] at hres
      exact stage3_ne_nil cfg h2 hres

/-- Witness for C6 at a concrete view emptied by the period stage. -/
theorem c6_empty_view_guarded_witness :
    (filter_data_traced [exRowNoCust] exCfgNarrow).emptyWarned = true ∧
    (filter_data_traced [exRowNoCust] exCfgNarrow).minmaxComputed = false :=
  c6_empty_view_guarded.1 [exRowNoCust] exCfgNarrow rfl

theorem metricAsc_trans (m : RankMode) : ∀ a b c : ProdRow,
    decide (metricOf m a ≤ metricOf m b) → decide (metricOf m b ≤ metricOf m c) →
    decide (metricOf m a ≤ metricOf m c) := by
  intro a b c hab hbc
  exact decide_eq_true (le_trans (of_decide_eq_true hab) (of_decide_eq_true hbc))

theorem metricAsc_total (m : RankMode) : ∀ a b : ProdRow,
    (decide (metricOf m a ≤ metricOf m b) || decide (metricOf m b ≤ metricOf m a)) = true := by
  intro a b
  rcases le_total (metricOf m a) (metricOf m b) with h | h
  · exact Bool.or_eq_true_iff.mpr (Or.inl (decide_eq_true h))
  · exact Bool.or_eq_true_iff.mpr (Or.inr (decide_eq_true h))

/-- Concrete view with two products tied on quantity, exposing the tie
order of the descending sort. -/
def exTieView : List Row :=
  load_data [⟨1, "A", some 1, 0, some 1, none, none⟩,
             ⟨2, "B", some 1, 0, some 1, none, none⟩]

/-- Counterexample to C5: the aggregate table iterates the tied products
as A then B, but the descending sort reverses the ascending argsort, so
the ranked output is B then A — the tied block is in reverse of the
original group iteration order, hence not a subsequence of the aggregate
table, refuting the claimed stable tie-breaking. -/
theorem c5_reversed_tie_counterexample :
    aggTable exTieView = [prodAgg exTieView "A", prodAgg exTieView "B"] ∧
    metricOf RankMode.byQuantity (prodAgg exTieView "A") =
      metricOf RankMode.byQuantity (prodAgg exTieView "B") ∧
    top_products exTieView RankMode.byQuantity 2 =
      some [prodAgg exTieView "B", prodAgg exTieView "A"] ∧
    prodAgg exTieView "A" ≠ prodAgg exTieView "B" ∧
    ¬ List.Sublist [prodAgg exTieView "B", prodAgg exTieView "A"] (aggTable exTieView) := by
  have hgroup : groupItems exTieView = ["A", "B"] := by
    unfold groupItems
    rw [show (exTieView.map (·.itemname)).dedup = ["A", "B"] by decide]
    exact List.Sorted.insertionSort_eq
      (List.pairwise_pair.mpr (le_of_lt (String.lt_iff_toList_lt.mpr (by decide))))
  have hagg : aggTable exTieView = [prodAgg exTieView "A", prodAgg exTieView "B"] := by
    unfold aggTable
    rw [hgroup]
    rfl
  have hq : (prodAgg exTieView "A").quantity_sold = (prodAgg exTieView "B").quantity_sold := by
    decide
  have hmeteq : metricOf RankMode.byQuantity (prodAgg exTieView "A") =
      metricOf RankMode.byQuantity (prodAgg exTieView "B") := by
    simp only [metricOf]
    exact congrArg (fun z : Int => (z : Rat)) hq
  have hpair : List.Pairwise
      (fun a b => decide (metricOf RankMode.byQuantity a ≤ metricOf RankMode.byQuantity b) = true)
      [prodAgg exTieView "A", prodAgg exTieView "B"] :=
    List.pairwise_pair.mpr (decide_eq_true (le_of_eq hmeteq))
  have hsort : sortByMetric RankMode.byQuantity (aggTable exTieView) =
      [prodAgg exTieView "B", prodAgg exTieView "A"] := by
    unfold sortByMetric
    rw [hagg, List.mergeSort_of_sorted hpair]
    rfl
  have hne : prodAgg exTieView "A" ≠ prodAgg exTieView "B" := by
    intro h
    have h2 : ("A" : String) = "B" := congrArg ProdRow.itemname h
    exact absurd h2 (by decide)
  have htop : top_products exTieView RankMode.byQuantity 2 =
      some [prodAgg exTieView "B", prodAgg exTieView "A"] := by
    simp only [top_products]
    rw [if_neg (show ¬ exTieView = [] by decide), hsort]
    rfl
  refine ⟨hagg, hmeteq, htop, hne, ?_⟩
  intro h
  have heq := h.eq_of_length (by rw [hagg]; rfl)
  rw [hagg] at heq
  injection heq with h1 _
  exact hne h1.symm

/-- C5 as amended: on a non-empty view the ranked product table is
defined, its length is the requested top-N clamped into
`[1, distinctItemCount]` (and equal to `min` of the clamp with the
distinct item count, with top-N forced to 1 when a single product
remains), and each adjacent pair is in descending order of the selected
metric; the relative order of tied rows is not specified (the reference
reverses an ascending argsort, so tied rows can appear in reverse of the
group iteration order). -/
theorem c5_ranked_product_table_amended (l : List Row) (m : RankMode) (topN : Nat)
    (hl : l ≠ []) :
    ∃ t, top_products l m topN = some t ∧
      t.length = min (effTopN (aggTable l).length topN) (aggTable l).length ∧
      1 ≤ effTopN (aggTable l).length topN ∧
      effTopN (aggTable l).length topN ≤ (aggTable l).length ∧
      ((aggTable l).length = 1 → effTopN (aggTable l).length topN = 1) ∧
      (aggTable l).length = ((l.map (·.itemname)).dedup).length ∧
      List.Chain' (fun a b => metricOf m b ≤ metricOf m a) t := by
  have hn : (aggTable l).length = ((l.map (·.itemname)).dedup).length := by
    unfold aggTable groupItems
    rw [List.length_map, List.length_insertionSort]
  have hn1 : 1 ≤ (aggTable l).length := by
    rw [hn]
    cases l with
    | nil => exact absurd rfl hl
    | cons a t =>
      exact List.length_pos_of_mem
        (List.mem_dedup.mpr (List.mem_map_of_mem (·.itemname) (List.mem_cons_self a t)))
  have hlen_agg : (sortByMetric m (aggTable l)).length = (aggTable l).length := by
    unfold sortByMetric
    rw [List.length_reverse]
    exact List.length_mergeSort _
  have hne : ¬ (sortByMetric m (aggTable l)).length = 0 := by omega
  refine ⟨(sortByMetric m (aggTable l)).take
      (effTopN (sortByMetric m (aggTable l)).length topN), ?_, ?_, ?_, ?_, ?_, hn, ?_⟩
  · unfold top_products
    rw [if_neg hl, if_neg hne]
  · rw [List.length_take, hlen_agg]
  · unfold effTopN
    split <;> omega
  · unfold effTopN
    split <;> omega
  · intro h1
    rw [h1]
    rfl
  · have hasc : (aggTable l).mergeSort
        (fun a b => decide (metricOf m a ≤ metricOf m b)) |>.Pairwise
        (fun a b => decide (metricOf m a ≤ metricOf m b) = true) :=
      List.sorted_mergeSort (metricAsc_trans m) (metricAsc_total m) (aggTable l)
    have hp : (sortByMetric m (aggTable l)).Pairwise
        (fun a b => decide (metricOf m b ≤ metricOf m a) = true) := by
      unfold sortByMetric
      exact List.pairwise_reverse.mpr hasc
    have hp' := (hp.sublist
        (List.take_sublist (effTopN (sortByMetric m (aggTable l)).length topN)
          (sortByMetric m (aggTable l)))).imp
      (fun h => of_decide_eq_true h)
    exact hp'.chain'

/-- Witness for the amended C5 at a concrete one-row view. -/
theorem c5_ranked_product_table_amended_witness :
    (top_products [exRowNoCust] RankMode.byQuantity 5).isSome = true := by
  obtain ⟨t, ht, -⟩ :=
    c5_ranked_product_table_amended [exRowNoCust] RankMode.byQuantity 5 (List.cons_ne_nil _ _)
  rw [ht]
  rfl

/-- Basket table has exactly one row per distinct `BillNo` of the view. -/
theorem baskets_length (l : List Row) :
    (baskets l).length = ((l.map (·.billNo)).dedup).length := by
  unfold baskets billKeys
  rw [List.length_map, List.length_insertionSort]

/-- Histogram counts of the basket-size distribution add up to the number
of baskets. -/
theorem sizeCounts_total (bs : List Basket) :
    ((sizeCounts bs).map (·.2)).sum = bs.length := by
  unfold sizeCounts
  rw [List.map_map]
  have hperm := (List.perm_insertionSort (· ≤ ·) ((bs.map (·.basket_size)).dedup)).map
    (fun s => (bs.map (·.basket_size)).count s)
  calc ((List.insertionSort (· ≤ ·) ((bs.map (·.basket_size)).dedup)).map
          ((·.2) ∘ fun s => (s, (bs.map (·.basket_size)).count s))).sum
      = ((List.insertionSort (· ≤ ·) ((bs.map (·.basket_size)).dedup)).map
          (fun s => (bs.map (·.basket_size)).count s)).sum := rfl
    _ = (((bs.map (·.basket_size)).dedup).map
          (fun s => (bs.map (·.basket_size)).count s)).sum := hperm.sum_eq
    _ = (bs.map (·.basket_size)).length := List.sum_map_count_dedup_eq_length _
    _ = bs.length := List.length_map _ _

/-- C10: the basket-size histogram partitions the baskets — its counts sum
to the number of distinct `BillNo` values of the view — and the three
reported means are the column sums over exactly that same basket table
divided by that same basket count. -/
theorem c10_basket_stats_partition (l : List Row) (hl : l ≠ []) :
    ∃ st, basket_analysis l = some st ∧
      ((st.size_counts.map (·.2)).sum = ((l.map (·.billNo)).dedup).length) ∧
      (baskets l).length = ((l.map (·.billNo)).dedup).length ∧
      st.mean_basket_size =
        ((baskets l).map (fun b => (b.basket_size : Rat))).sum /
          ((((l.map (·.billNo)).dedup).length : Nat) : Rat) ∧
      st.mean_quantity_total =
        ((baskets l).map (fun b => (b.quantity_total : Rat))).sum /
          ((((l.map (·.billNo)).dedup).length : Nat) : Rat) ∧
      st.mean_revenue =
        ((baskets l).map (·.revenue)).sum /
          ((((l.map (·.billNo)).dedup).length : Nat) : Rat) := by
  have hlen := baskets_length l
  have heq : basket_analysis l = some
      ⟨((baskets l).map (fun b => (b.basket_size : Rat))).sum / ((baskets l).length : Rat),
        ((baskets l).map (fun b => (b.quantity_total : Rat))).sum / ((baskets l).length : Rat),
        ((baskets l).map (·.revenue)).sum / ((baskets l).length : Rat),
        sizeCounts (baskets l)⟩ := by
    unfold basket_analysis
    rw [if_neg hl]
  refine ⟨_, heq, ?_, hlen, ?_, ?_, ?_⟩
  · calc ((sizeCounts (baskets l)).map (·.2)).sum
        = (baskets l).length := sizeCounts_total (baskets l)
      _ = ((l.map (·.billNo)).dedup).length := hlen
  · rw [← hlen]
  · rw [← hlen]
  · rw [← hlen]

/-- Witness for C10 at a concrete two-bill view. -/
theorem c10_basket_stats_partition_witness :
    ∃ st, basket_analysis [exRowNoCust, exRowNoCountry] = some st ∧
      (st.size_counts.map (·.2)).sum = 2 := by
  obtain ⟨st, hst, hsum, -⟩ :=
    c10_basket_stats_partition [exRowNoCust, exRowNoCountry] (List.cons_ne_nil _ _)
  exact ⟨st, hst, by rw [hsum]; rfl⟩

theorem dayName_mem (t : Nat) : dayName t ∈ weekdayOrder := by
  unfold dayName
  have h : (t / 24 + 3) % 7 < weekdayOrder.length := by
    have := Nat.mod_lt (t / 24 + 3) (show 0 < 7 by norm_num)
    simpa [weekdayOrder] using this
  rw [List.getD_eq_getElem?_getD, List.getElem?_eq_getElem h]
  simp only [Option.getD_some]
  exact List.getElem_mem _

/-- Cell key of a bill: the key of the first row carrying that bill
number; under the one-timestamp-per-bill hypothesis every row of the bill
has this key. -/
def keyOfBill (v : List Row) (b : Nat) : String × Nat :=
  match v.find? (fun r => decide (r.billNo = b)) with
  | some r => cellKey r
  | none => ("", 0)

theorem keyOfBill_eq {v : List Row}
    (hd : ∀ r ∈ v, r.weekday = dayName r.date ∧ r.hour = hourOf r.date)
    (hb : ∀ r1 ∈ v, ∀ r2 ∈ v, r1.billNo = r2.billNo → r1.date = r2.date)
    {r : Row} (hr : r ∈ v) : keyOfBill v r.billNo = cellKey r := by
  unfold keyOfBill
  cases hf : v.find? (fun s => decide (s.billNo = r.billNo)) with
  | none =>
    exfalso
    rw [List.find?_eq_none] at hf
    exact hf r hr (decide_eq_true rfl)
  | some s =>
    have hs_mem := List.mem_of_find?_eq_some hf
    have hsb := List.find?_some hf
    have hs_bill : s.billNo = r.billNo := by simpa using hsb
    have hdate : s.date = r.date := hb s hs_mem r hr hs_bill
    obtain ⟨hws, hhs⟩ := hd s hs_mem
    obtain ⟨hwr, hhr⟩ := hd r hr
    show cellKey s = cellKey r
    unfold cellKey
    rw [hws, hhs, hwr, hhr, hdate]

theorem sum_map_add_nat {α : Type} (K : List α) (f g : α → Nat) :
    (K.map (fun k => f k + g k)).sum = (K.map f).sum + (K.map g).sum := by
  induction K with
  | nil => rfl
  | cons k K ih => simp [ih]; omega

theorem sum_if_not_mem {β : Type} [DecidableEq β] (b : β) :
    ∀ K : List β, b ∉ K → (K.map (fun k => if b = k then (1 : Nat) else 0)).sum = 0 := by
  intro K
  induction K with
  | nil => intro _; rfl
  | cons k K ih =>
    intro h
    have hbk : ¬ b = k := fun he => h (he ▸ List.mem_cons_self k K)
    have hbK : b ∉ K := fun hm => h (List.mem_cons_of_mem k hm)
    simp [hbk, ih hbK]

theorem sum_if_mem {β : Type} [DecidableEq β] (b : β) :
    ∀ K : List β, K.Nodup → b ∈ K →
      (K.map (fun k => if b = k then (1 : Nat) else 0)).sum = 1 := by
  intro K
  induction K with
  | nil => intro _ h; cases h
  | cons k K ih =>
    intro hnd hm
    obtain ⟨hk, hKnd⟩ := List.pairwise_cons.mp hnd
    rcases List.mem_cons.mp hm with he | hm'
    · subst he
      have hbK : b ∉ K := fun hx => (hk b hx) rfl
      simp [sum_if_not_mem b K hbK]
    · have hbk : ¬ b = k := fun he' => (hk b hm') he'.symm
      simp [hbk, ih hKnd hm']

/-- Partition counting: when every element of `L` maps into the nodup key
list `K`, the filtered block lengths over the keys add up to the length
of `L`. -/
theorem sum_length_filter_partition {α β : Type} [DecidableEq β] (κ : α → β)
    (K : List β) (hK : K.Nodup) :
    ∀ L : List α, (∀ a ∈ L, κ a ∈ K) →
      (K.map (fun k => (L.filter (fun a => decide (κ a = k))).length)).sum = L.length := by
  intro L
  induction L with
  | nil => intro _; simp
  | cons a L ih =>
    intro h
    have ha : κ a ∈ K := h a (List.mem_cons_self a L)
    have hL : ∀ x ∈ L, κ x ∈ K := fun x hx => h x (List.mem_cons_of_mem a hx)
    have hsplit : ∀ k, ((a :: L).filter (fun x => decide (κ x = k))).length =
        (if κ a = k then 1 else 0) + (L.filter (fun x => decide (κ x = k))).length := by
      intro k
      rw [List.filter_cons]
      by_cases hak : κ a = k
      · simp [hak, Nat.add_comm]
      · simp [hak]
    calc (K.map fun k => ((a :: L).filter (fun x => decide (κ x = k))).length).sum
        = (K.map fun k =>
            (if κ a = k then 1 else 0) + (L.filter (fun x => decide (κ x = k))).length).sum := by
          rw [List.map_congr_left (fun k _ => hsplit k)]
      _ = (K.map fun k => if κ a = k then (1 : Nat) else 0).sum +
            (K.map fun k => (L.filter (fun x => decide (κ x = k))).length).sum :=
          sum_map_add_nat K _ _
      _ = 1 + L.length := by rw [sum_if_mem (κ a) K hK ha, ih hL]
      _ = (a :: L).length := by simp [Nat.add_comm]

/-- Distinct bills inside one heatmap cell are exactly the distinct bills
of the view whose bill-level key is that cell. -/
theorem per_cell_count {v : List Row}
    (hd : ∀ r ∈ v, r.weekday = dayName r.date ∧ r.hour = hourOf r.date)
    (hb : ∀ r1 ∈ v, ∀ r2 ∈ v, r1.billNo = r2.billNo → r1.date = r2.date)
    (k : String × Nat) :
    ((v.filter (fun r => decide (cellKey r = k))).map (·.billNo)).dedup.length =
      (((v.map (·.billNo)).dedup).filter (fun b => decide (keyOfBill v b = k))).length := by
  apply List.Perm.length_eq
  apply (List.perm_ext_iff_of_nodup (List.nodup_dedup _)
    ((List.nodup_dedup _).filter _)).mpr
  intro b
  rw [List.mem_dedup, List.mem_filter, List.mem_dedup]
  constructor
  · intro hmem
    obtain ⟨r, hrf, hrb⟩ := List.mem_map.mp hmem
    obtain ⟨hrv, hrk⟩ := List.mem_filter.mp hrf
    have hrk' : cellKey r = k := of_decide_eq_true hrk
    refine ⟨List.mem_map.mpr ⟨r, hrv, hrb⟩, decide_eq_true ?_⟩
    rw [← hrb, keyOfBill_eq hd hb hrv, hrk']
  · rintro ⟨hmem, hkb⟩
    obtain ⟨r, hrv, hrb⟩ := List.mem_map.mp hmem
    have hkb' : keyOfBill v b = k := of_decide_eq_true hkb
    have hck : cellKey r = k := by
      rw [← hkb', ← hrb, keyOfBill_eq hd hb hrv]
    exact List.mem_map.mpr
      ⟨r, List.mem_filter.mpr ⟨hrv, decide_eq_true hck⟩, hrb⟩

/-- C7: under a single timestamp per bill, every heatmap cell key is a
valid weekday label with an hour in `[0, 23]`, and the cell counts add up
to the number of distinct `BillNo` values of the view. -/
theorem c7_heatmap_keys_and_total (v : List Row)
    (hd : ∀ r ∈ v, r.weekday = dayName r.date ∧ r.hour = hourOf r.date)
    (hb : ∀ r1 ∈ v, ∀ r2 ∈ v, r1.billNo = r2.billNo → r1.date = r2.date) :
    (∀ c ∈ heat v, c.1.1 ∈ weekdayOrder ∧ c.1.2 ≤ 23) ∧
    ((heat v).map (·.2)).sum = ((v.map (·.billNo)).dedup).length := by
  constructor
  · intro c hc
    obtain ⟨k, hk, hck⟩ := List.mem_map.mp hc
    have hk' : k ∈ (v.map cellKey).dedup := by
      unfold heatKeys at hk
      exact (List.mem_insertionSort pairKeyLe).mp hk
    obtain ⟨r, hrv, hrk⟩ := List.mem_map.mp (List.mem_dedup.mp hk')
    obtain ⟨hw, hh⟩ := hd r hrv
    have h1 : c.1 = k := by rw [← hck]
    rw [h1, ← hrk]
    unfold cellKey
    rw [hw, hh]
    refine ⟨dayName_mem r.date, ?_⟩
    have := Nat.mod_lt r.date (show 0 < 24 by norm_num)
    unfold hourOf
    omega
  · have h1 : (heat v).map (·.2) = (heatKeys v).map
        (fun k => ((v.filter (fun r => decide (cellKey r = k))).map (·.billNo)).dedup.length) := by
      unfold heat
      rw [List.map_map]
      rfl
    rw [h1,
      List.map_congr_left (fun k _ => per_cell_count hd hb k)]
    have h2 := (List.perm_insertionSort pairKeyLe ((v.map cellKey).dedup)).map
      (fun k => (((v.map (·.billNo)).dedup).filter (fun b => decide (keyOfBill v b = k))).length)
    rw [show heatKeys v = List.insertionSort pairKeyLe ((v.map cellKey).dedup) from rfl,
      h2.sum_eq]
    apply sum_length_filter_partition (keyOfBill v) ((v.map cellKey).dedup)
      (List.nodup_dedup _)
    intro b hbmem
    obtain ⟨r, hrv, hrb⟩ := List.mem_map.mp (List.mem_dedup.mp hbmem)
    rw [List.mem_dedup, ← hrb, keyOfBill_eq hd hb hrv]
    exact List.mem_map.mpr ⟨r, hrv, rfl⟩

/-- Concrete two-bill view for the heatmap witness: bill 1 falls on
(Friday, 10), bill 2 on (Friday, 23). -/
def exHeatView : List Row :=
  load_data [⟨1, "Mug", some 2, 34, some 3, some 1, some "UK"⟩,
             ⟨2, "Mug", some 1, 47, some 3, none, some "FR"⟩]

/-- Witness for C7 at the concrete two-bill view. -/
theorem c7_heatmap_keys_and_total_witness :
    ((heat exHeatView).map (·.2)).sum = ((exHeatView.map (·.billNo)).dedup).length :=
  (c7_heatmap_keys_and_total exHeatView (by decide) (by decide)).2

/-- Counterexample to C8: on a one-row view the heatmap emits a single
observed cell, not a complete zero-filled 7 x 24 grid, and the empty cell
(Monday, 5) is silently absent from the result. -/
theorem c8_complete_grid_counterexample :
    (heat [normalizeRow ⟨1, "Mug", some 2, 34, some 3, some 1, some "UK"⟩]).length = 1 ∧
    (1 : Nat) ≠ 7 * 24 ∧
    ("Monday", 5) ∉
      (heat [normalizeRow ⟨1, "Mug", some 2, 34, some 3, some 1, some "UK"⟩]).map (·.1) := by
  refine ⟨rfl, by decide, by decide⟩

/-- C8 as amended: the heatmap emits exactly the observed `(Weekday,
Hour)` cells — its key list is a permutation of the distinct observed
pairs — and every emitted cell has a positive count; unobserved cells are
omitted rather than zero-filled (the categorical weekday retyping only
fixes the display ordering). -/
theorem c8_observed_cells_amended (v : List Row) :
    ((heat v).map (·.1)).Perm ((v.map cellKey).dedup) ∧
    ∀ c ∈ heat v, 1 ≤ c.2 := by
  constructor
  · have h1 : (heat v).map (·.1) = heatKeys v := by
      unfold heat
      rw [List.map_map]
      exact List.map_id _
    rw [h1]
    exact List.perm_insertionSort pairKeyLe _
  · intro c hc
    obtain ⟨k, hk, hck⟩ := List.mem_map.mp hc
    have hk' : k ∈ (v.map cellKey).dedup := by
      unfold heatKeys at hk
      exact (List.mem_insertionSort pairKeyLe).mp hk
    obtain ⟨r, hrv, hrk⟩ := List.mem_map.mp (List.mem_dedup.mp hk')
    have hrmem : r ∈ v.filter (fun s => decide (cellKey s = k)) :=
      List.mem_filter.mpr ⟨hrv, decide_eq_true hrk⟩
    have hpos : 0 <
        ((v.filter (fun s => decide (cellKey s = k))).map (·.billNo)).dedup.length :=
      List.length_pos_of_mem
        (List.mem_dedup.mpr (List.mem_map.mpr ⟨r, hrmem, rfl⟩))
    rw [← hck]
    exact hpos

/-- Witness for the amended C8 at a concrete one-row view whose single
cell (Friday, 10) carries count 1. -/
theorem c8_observed_cells_amended_witness :
    1 ≤ ((("Friday", 10), 1) : (String × Nat) × Nat).2 :=
  (c8_observed_cells_amended
      [normalizeRow ⟨1, "Mug", some 2, 34, some 3, some 1, some "UK"⟩]).2
    (("Friday", 10), 1) (by decide)

end Market
